import Mathlib

/-!
Verification of the Capture & Comparison Pipeline of the web-app cloning
agent.  The definitions below are a shallow embedding of the JavaScript
sources:

* `src/scraper/dom-analyzer.js` — the DOM snapshot extractor
  (`analyzeDOMStructure` / `extractElement`);
* the network correlator (`captureNetworkTraffic` / `isApiCall`);
* `src/testing/visual-test.js` — the visual/CSS comparison engine
  (`comparePages` / `compareCSSProperties` / `cssValuesMatch`).

Host-browser primitives (`getBoundingClientRect`, `getComputedStyle`,
`response.text()`, `JSON.parse`) are modelled as data carried by the input
(rects and computed styles are fields of the modelled DOM nodes; the outcome
of a response-body read is part of the response event; `JSON.parse` is an
explicit function parameter, since it is a host built-in and the code only
depends on whether it succeeds or throws).
-/

namespace WebClone

/-- A bounding client rect as read by the extractor: only the `x`, `y`,
`width` and `height` fields of the DOMRect are ever used by the source.
Coordinates are modelled as integers (the claims only depend on
zero/positive tests, never on fractional values). -/
structure Rect where
  x : Int
  y : Int
  width : Int
  height : Int
deriving Repr, DecidableEq

/-- The fixed-shape computed-style record captured by `extractElement` in
`dom-analyzer.js` (lines 15–34): exactly the eighteen properties read from
`window.getComputedStyle(element)`. -/
structure CStyle where
  display : String
  position : String
  width : String
  height : String
  margin : String
  padding : String
  backgroundColor : String
  color : String
  fontSize : String
  fontFamily : String
  fontWeight : String
  borderRadius : String
  border : String
  boxShadow : String
  flexDirection : String
  justifyContent : String
  alignItems : String
  gridTemplateColumns : String
deriving Repr, DecidableEq

/-- A computed-style record with every property the empty string; used to
build small concrete documents in the closed sanity statements. -/
def blankStyle : CStyle :=
  ⟨"", "", "", "", "", "", "", "", "", "", "", "", "", "", "", "", "", ""⟩

/-- JavaScript's `String.prototype.toLowerCase` (ASCII case mapping, which
covers every tag name, URL and CSS value occurring here). -/
def jsToLower (s : String) : String :=
  String.mk (s.data.map Char.toLower)

/-- JavaScript's `String.prototype.trim`: strip leading and trailing
whitespace. -/
def jsTrim (s : String) : String :=
  String.mk
    (((s.data.dropWhile Char.isWhitespace).reverse.dropWhile
        Char.isWhitespace).reverse)

mutual
/-- A live DOM node as seen by the in-page script of `dom-analyzer.js`.
`element` carries the data the extractor reads from the host: `tagName` (as
the DOM reports it — upper-case for HTML elements), the `id` property, the
`classList`, the attribute map, the computed style, the bounding client
rect, and the full `childNodes` list (elements, text nodes and comments).
`element.children` is the sublist of element children. -/
inductive DNode : Type where
  | element (tagName : String) (idAttr : String) (classList : List String)
      (attributes : List (String × String)) (style : CStyle) (rect : Rect)
      (childNodes : DForest) : DNode
  | textNode (content : String) : DNode
  | comment (content : String) : DNode

/-- A list of sibling DOM nodes (`childNodes`), as a mutual inductive so
that all tree walks below are structural recursions. -/
inductive DForest : Type where
  | nil : DForest
  | cons (head : DNode) (tail : DForest) : DForest
end

/-- `Node.nodeType`: 1 for elements, 3 for text nodes, 8 for comments. -/
def DNode.nodeType : DNode → Nat
  | .element _ _ _ _ _ _ _ => 1
  | .textNode _ => 3
  | .comment _ => 8

/-- Whether a node is an element (a member of `element.children`). -/
def DNode.isElem : DNode → Bool
  | .element _ _ _ _ _ _ _ => true
  | _ => false

/-- The `tagName` of a node (empty for non-elements, which have none). -/
def DNode.tagName : DNode → String
  | .element t _ _ _ _ _ _ => t
  | _ => ""

/-- The bounding client rect of a node (zero rect for non-elements). -/
def DNode.rect : DNode → Rect
  | .element _ _ _ _ _ r _ => r
  | _ => ⟨0, 0, 0, 0⟩

/-- The `childNodes` of a node (empty for non-elements). -/
def DNode.childNodes : DNode → DForest
  | .element _ _ _ _ _ _ cs => cs
  | _ => .nil

/-- Length of a sibling list (`childNodes.length`). -/
def DForest.length : DForest → Nat
  | .nil => 0
  | .cons _ tl => 1 + tl.length

/-- The underlying plain list of a sibling list. -/
def DForest.toList : DForest → List DNode
  | .nil => []
  | .cons hd tl => hd :: tl.toList

mutual
/-- `Node.textContent` of a node: for an element, the concatenation of the
text of its descendants (text-node data; comments contribute nothing); for
a text node, its data. -/
def DNode.textContent : DNode → String
  | .element _ _ _ _ _ _ cs => DForest.textContent cs
  | .textNode s => s
  | .comment _ => ""

/-- `textContent` concatenated over a sibling list. -/
def DForest.textContent : DForest → String
  | .nil => ""
  | .cons hd tl => hd.textContent ++ DForest.textContent tl
end

/-- One node of the serialized snapshot returned by `extractElement`: the
object literal built at `dom-analyzer.js` lines 57–75 (`tag`, `id`,
`classes`, `attributes`, `styles`, `textContent`, `position`, `children`).
`id` is `none` when `element.id` is the empty string (`element.id || null`),
and `textContent` is `none` when the text-capture condition fails. -/
inductive ExtractedNode : Type where
  | mk (tag : String) (idAttr : Option String) (classes : List String)
      (attributes : List (String × String)) (styles : CStyle)
      (textContent : Option String) (position : Rect)
      (children : List ExtractedNode) : ExtractedNode

/-- The `children` field of a snapshot node. -/
def ExtractedNode.children : ExtractedNode → List ExtractedNode
  | .mk _ _ _ _ _ _ _ cs => cs

/-- The `tag` field of a snapshot node. -/
def ExtractedNode.tag : ExtractedNode → String
  | .mk t _ _ _ _ _ _ _ => t

/-- The `textContent` field of a snapshot node. -/
def ExtractedNode.textContent : ExtractedNode → Option String
  | .mk _ _ _ _ _ tc _ _ => tc

/-- The `position` field of a snapshot node. -/
def ExtractedNode.position : ExtractedNode → Rect
  | .mk _ _ _ _ _ _ p _ => p

mutual
/-- `extractElement(element, depth)` from `dom-analyzer.js` (lines 8–76).
The guard `depth > 15` returns a null branch (the `!element` null-check of
the source cannot arise here because the model has no null nodes).  The
`textContent` field is populated exactly under the source condition
`element.childNodes.length === 1 && element.childNodes[0].nodeType === 3`,
in which case `element.textContent` is precisely the single text child's
data, trimmed. -/
def extractElement (element : DNode) (depth : Nat) : Option ExtractedNode :=
  if depth > 15 then none
  else
    match element with
    | .element tagName idAttr classList attributes style rect childNodes =>
        some (.mk (jsToLower tagName)
          (if idAttr = "" then none else some idAttr)
          classList
          attributes
          style
          (match childNodes with
            | .cons (.textNode s) .nil => some (jsTrim s)
            | _ => none)
          ⟨rect.x, rect.y, rect.width, rect.height⟩
          (extractChildren childNodes depth))
    | .textNode _ => none
    | .comment _ => none

/-- The child loop of `extractElement` (`dom-analyzer.js` lines 43–55):
iterate `element.children` (element children only), skip `<script>` and
`<style>`, include a child only when its own bounding rect has strictly
positive width and height, recurse at `depth + 1`, and push only non-null
results. -/
def extractChildren (children : DForest) (depth : Nat) : List ExtractedNode :=
  match children with
  | .nil => []
  | .cons child rest =>
      let restOut := extractChildren rest depth
      match child with
      | .element ctag _ _ _ _ crect _ =>
          if ctag = "SCRIPT" ∨ ctag = "STYLE" then restOut
          else if crect.width > 0 ∧ crect.height > 0 then
            match extractElement child (depth + 1) with
            | some childData => childData :: restOut
            | none => restOut
          else restOut
      | _ => restOut
end

mutual
/-- Height of a snapshot node: 0 for a leaf, one more than the maximal
child height otherwise.  A node of height `h` has its deepest descendant
at relative depth `h`. -/
def heightE : ExtractedNode → Nat
  | .mk _ _ _ _ _ _ _ cs => heightList cs

/-- Maximal `heightE c + 1` over a list of children (0 when empty). -/
def heightList : List ExtractedNode → Nat
  | [] => 0
  | c :: cs => max (heightE c + 1) (heightList cs)
end

/-- The `id` property of a node (empty for non-elements). -/
def DNode.idAttr : DNode → String
  | .element _ i _ _ _ _ _ => i
  | _ => ""

/-- The `classList` of a node (empty for non-elements). -/
def DNode.classList : DNode → List String
  | .element _ _ cs _ _ _ _ => cs
  | _ => []

/-- The attribute map of a node (empty for non-elements). -/
def DNode.attributes : DNode → List (String × String)
  | .element _ _ _ as _ _ _ => as
  | _ => []

/-- Value of attribute `name` on a node, if present (first binding wins). -/
def attrValue (n : DNode) (name : String) : Option String :=
  (n.attributes.find? (fun p => p.1 = name)).map Prod.snd

/-- CSS selector `[role="main"]`: an element whose `role` attribute equals
`main`. -/
def matchesRoleMain (n : DNode) : Bool :=
  n.isElem && attrValue n "role" = some "main"

/-- CSS selector `#root`: an element with id `root`. -/
def matchesIdRoot (n : DNode) : Bool :=
  n.isElem && n.idAttr = "root"

/-- CSS selector `.app`: an element whose class list contains `app`. -/
def matchesClassApp (n : DNode) : Bool :=
  n.isElem && n.classList.contains "app"

mutual
/-- `querySelector`-style search: first node in document (pre-)order
satisfying `p`, or `none`. -/
def findFirst (p : DNode → Bool) (n : DNode) : Option DNode :=
  if p n then some n
  else
    match n with
    | .element _ _ _ _ _ _ cs => findFirstF p cs
    | _ => none

/-- `findFirst` over a sibling list, left to right. -/
def findFirstF (p : DNode → Bool) (f : DForest) : Option DNode :=
  match f with
  | .nil => none
  | .cons hd tl =>
      match findFirst p hd with
      | some m => some m
      | none => findFirstF p tl
end

/-- The page-global data read by `analyzeDOMStructure`'s in-page script:
`document.title`, `window.location.href`, the viewport, and the rendered
tree (modelled from `document.body`; the three `querySelector` calls are
resolved against this tree, which in any real document contains all
candidates for `[role="main"]`, `#root` and `.app`). -/
structure Document where
  title : String
  url : String
  viewportWidth : Nat
  viewportHeight : Nat
  body : DNode

/-- Root detection of `dom-analyzer.js` lines 79–83:
`document.querySelector('[role="main"]') || document.querySelector("#root")
|| document.querySelector(".app") || document.body` — first match wins. -/
def detectRoot (doc : Document) : DNode :=
  match findFirst matchesRoleMain doc.body with
  | some n => n
  | none =>
      match findFirst matchesIdRoot doc.body with
      | some n => n
      | none =>
          match findFirst matchesClassApp doc.body with
          | some n => n
          | none => doc.body

/-- The record returned by `analyzeDOMStructure` (lines 85–93).  The source
field named `structure` is called `tree` here (`structure` is a Lean
keyword). -/
structure DomData where
  title : String
  url : String
  viewportWidth : Nat
  viewportHeight : Nat
  tree : Option ExtractedNode

/-- `analyzeDOMStructure(page)` from `dom-analyzer.js` (lines 3–98): detect
the application root and extract the snapshot starting at depth 0.  No
visibility filter is applied to the detected root itself. -/
def analyzeDOMStructure (doc : Document) : DomData :=
  ⟨doc.title, doc.url, doc.viewportWidth, doc.viewportHeight,
    extractElement (detectRoot doc) 0⟩

/-! ## Network correlator (`captureNetworkTraffic` / `isApiCall`) -/

/-- JavaScript's `String.prototype.includes`: substring occurrence. -/
def jsIncludes (s pat : String) : Bool :=
  decide (pat.data <:+: s.data)

/-- The allow-list of API path fragments (`apiPatterns`). -/
def apiPatterns : List String :=
  ["/api/", "/graphql", "/rest/", "app.asana.com/api"]

/-- The deny-list of static-asset / tracking fragments (`excludePatterns`). -/
def excludePatterns : List String :=
  [".js", ".css", ".png", ".jpg", ".jpeg", ".gif", ".svg", ".woff",
   ".woff2", ".ttf", ".ico", "analytics", "tracking", "segment.io",
   "google-analytics"]

/-- `isApiCall(url)`: the lower-cased URL must contain at least one
allow-list fragment and no deny-list fragment. -/
def isApiCall (url : String) : Bool :=
  let lowerUrl := jsToLower url
  let isApi := apiPatterns.any (fun pattern => jsIncludes lowerUrl pattern)
  let isNotExcluded := ! excludePatterns.any (fun pattern => jsIncludes lowerUrl pattern)
  isApi && isNotExcluded

/-- A JSON value, the result of a successful `JSON.parse`. -/
inductive Json : Type where
  | null : Json
  | boolean (b : Bool) : Json
  | num (q : ℚ) : Json
  | str (s : String) : Json
  | arr (elems : List Json) : Json
  | obj (fields : List (String × Json)) : Json

/-- The pending-request record built by the `request` handler
(`requestData`, lines 18–25).  `id` is the host-random `generateId()`
output, carried as input data. -/
structure RequestData where
  id : String
  url : String
  method : String
  headers : List (String × String)
  postData : Option String
  timestamp : Nat

/-- The `body` stored on a finalized call: `null` when the body read
failed, the raw text when the content type is not JSON (or the text is
empty), or the parsed JSON value. -/
inductive BodyVal : Type where
  | null : BodyVal
  | raw (s : String) : BodyVal
  | json (j : Json) : BodyVal

/-- The `response` sub-record of a finalized call (lines 43–52). -/
structure ResponseData where
  status : Nat
  headers : List (String × String)
  body : BodyVal
  contentType : String

/-- A finalized ApiCall: `{ ...requestData, response: {...} }`. -/
structure ApiCallRec extends RequestData where
  response : ResponseData

/-- One event of the page's network stream.  `reqId` models the identity
of the browser `request` object (the pending-map key); a `response` event
carries `response.request()`'s identity, `response.url()`, the status and
headers, and the outcome of `await response.text()` — `none` when the read
rejected (the source maps that to `null` via `.catch(() => null)`). -/
inductive NetEvent : Type where
  | request (reqId : Nat) (genId : String) (url : String) (method : String)
      (headers : List (String × String)) (postData : Option String)
      (timestamp : Nat) : NetEvent
  | response (reqId : Nat) (url : String) (status : Nat)
      (headers : List (String × String)) (textResult : Option String) : NetEvent

/-- The correlator's state: the append-only finalized list `apiCalls` and
the pending `requestMap` keyed by request identity. -/
structure CaptureState where
  apiCalls : List ApiCallRec
  requestMap : List (Nat × RequestData)

/-- `Map.prototype.set`: overwrite an existing key or append a new one. -/
def mapSet (m : List (Nat × RequestData)) (k : Nat) (v : RequestData) :
    List (Nat × RequestData) :=
  if m.any (fun p => p.1 = k) then
    m.map (fun p => if p.1 = k then (k, v) else p)
  else m ++ [(k, v)]

/-- `Map.prototype.get`: first binding of `k`, if any. -/
def mapGet (m : List (Nat × RequestData)) (k : Nat) : Option RequestData :=
  (m.find? (fun p => p.1 = k)).map Prod.snd

/-- `Map.prototype.delete`: remove every binding of `k`. -/
def mapDelete (m : List (Nat × RequestData)) (k : Nat) :
    List (Nat × RequestData) :=
  m.filter (fun p => p.1 ≠ k)

/-- `response.headers()["content-type"] || ""`. -/
def headerLookup (headers : List (String × String)) (name : String) : String :=
  match (headers.find? (fun p => p.1 = name)).map Prod.snd with
  | some v => v
  | none => ""

/-- JavaScript truthiness of the `responseBody` value: `null` and the empty
string are falsy. -/
def jsTruthy : Option String → Bool
  | none => false
  | some s => s ≠ ""

/-- `responseBody` as a stored body when no JSON parse is attempted:
`null` stays null, text is stored raw. -/
def bodyOfText : Option String → BodyVal
  | none => .null
  | some s => .raw s

/-- The `request` event handler (lines 12–29): record the pending request
iff `isApiCall(url)`. -/
def onRequest (st : CaptureState) (reqId : Nat) (genId url method : String)
    (headers : List (String × String)) (postData : Option String)
    (timestamp : Nat) : CaptureState :=
  if isApiCall url then
    { st with requestMap :=
        mapSet st.requestMap reqId ⟨genId, url, method, headers, postData, timestamp⟩ }
  else st

/-- The `response` event handler (lines 32–75), parameterized by the host
`JSON.parse` (`none` models a thrown `SyntaxError`).  When the content type
declares JSON and the body text is truthy, a parse failure lands in the
`catch` block: nothing is pushed, but the pending entry is still deleted.
In every other case the combined record is pushed.  A response whose
request is unknown, or whose URL is out of scope, changes nothing (and the
pending entry, if any, is not deleted). -/
def onResponse (jsonParse : String → Option Json) (st : CaptureState)
    (reqId : Nat) (url : String) (status : Nat)
    (headers : List (String × String)) (textResult : Option String) :
    CaptureState :=
  match mapGet st.requestMap reqId with
  | none => st
  | some requestData =>
      if isApiCall url then
        let contentType := headerLookup headers "content-type"
        let pushed : Option ApiCallRec :=
          if jsIncludes contentType "application/json" ∧ jsTruthy textResult then
            match jsonParse (match textResult with | some s => s | none => "") with
            | some j => some ⟨requestData, ⟨status, headers, .json j, contentType⟩⟩
            | none => none
          else
            some ⟨requestData, ⟨status, headers, bodyOfText textResult, contentType⟩⟩
        { apiCalls := st.apiCalls ++ pushed.toList,
          requestMap := mapDelete st.requestMap reqId }
      else st

/-- Dispatch one network event to its handler. -/
def processEvent (jsonParse : String → Option Json) (st : CaptureState) :
    NetEvent → CaptureState
  | .request reqId genId url method headers postData timestamp =>
      onRequest st reqId genId url method headers postData timestamp
  | .response reqId url status headers textResult =>
      onResponse jsonParse st reqId url status headers textResult

/-- The state after observing a whole event stream, starting from the
empty state built by `captureNetworkTraffic` (lines 6–7). -/
def processEvents (jsonParse : String → Option Json)
    (events : List NetEvent) : CaptureState :=
  events.foldl (processEvent jsonParse) ⟨[], []⟩

/-- `getApiCalls()`: the finalized list, read-only. -/
def getApiCalls (st : CaptureState) : List ApiCallRec :=
  st.apiCalls

/-- `saveToFile(filename)`: serializes `apiCalls` to disk (a host effect,
outside the model) and returns it; the correlator state is untouched. -/
def saveToFile (st : CaptureState) : List ApiCallRec × CaptureState :=
  (st.apiCalls, st)

/-! ## Visual/CSS comparison engine (`visual-test.js`) -/

/-- The space character (code point 32), the replacement for a whitespace
run in `normalize`. -/
def spaceChar : Char := Char.ofNat 32

/-- `replace(/\s+/g, " ")` on a character list: each maximal run of
whitespace becomes one single space.  (Lean's `Char.isWhitespace` covers
the ASCII whitespace relevant to CSS values.) -/
def collapseWs : List Char → List Char
  | [] => []
  | [c] => if c.isWhitespace then [spaceChar] else [c]
  | c :: d :: rest =>
      if c.isWhitespace ∧ d.isWhitespace then collapseWs (d :: rest)
      else (if c.isWhitespace then spaceChar else c) :: collapseWs (d :: rest)

/-- The `normalize` closure of `cssValuesMatch` (lines 247–250): a falsy
value (`null`, `undefined` or the empty string) normalizes to `""`;
otherwise lower-case, collapse whitespace runs to single spaces, and trim.
`none` models a null/missing CSS value. -/
def cssNormalize (val : Option String) : String :=
  match val with
  | none => ""
  | some v =>
      if v = "" then ""
      else jsTrim (String.mk (collapseWs (jsToLower v).data))

/-- `cssValuesMatch(value1, value2)` (lines 245–253): equality of the
normalized values. -/
def cssValuesMatch (value1 value2 : Option String) : Bool :=
  cssNormalize value1 == cssNormalize value2

/-- The fixed property vector read from `window.getComputedStyle` by
`compareCSSProperties` (lines 183–213): eight properties; a value is
`none` when the host reports the property as null/missing. -/
structure StyleVec where
  color : Option String
  backgroundColor : Option String
  fontSize : Option String
  fontWeight : Option String
  padding : Option String
  margin : Option String
  borderRadius : Option String
  display : Option String

/-- `Object.entries` of a style record, in the insertion order of the
object literal in the source. -/
def propsOf (s : StyleVec) : List (String × Option String) :=
  [("color", s.color), ("backgroundColor", s.backgroundColor),
   ("fontSize", s.fontSize), ("fontWeight", s.fontWeight),
   ("padding", s.padding), ("margin", s.margin),
   ("borderRadius", s.borderRadius), ("display", s.display)]

/-- A loaded page, for comparison purposes: `query sel` models
`page.$$(sel)`, each located element represented by its computed style
vector. -/
structure Page where
  query : String → List StyleVec

/-- The fixed selector classes compared (lines 160–171). -/
def selectors : List String :=
  ["button", "input", "a", "h1", "h2", "h3", ".card", ".header",
   ".sidebar", "nav"]

/-- One entry of the `matches` list: `{ selector, property, value }` with
`value` the original side's value. -/
structure MatchEntry where
  selector : String
  property : String
  value : Option String

/-- One entry of the `mismatches` list:
`{ selector, property, original, generated }`. -/
structure MismatchEntry where
  selector : String
  property : String
  original : Option String
  generated : Option String

/-- The property loop of `compareCSSProperties` (lines 216–235): walk the
`Object.entries` of the original style vector paired with the generated
value under the same key, pushing a match entry `{selector, property,
value}` or a mismatch entry `{selector, property, original, generated}` in
iteration order. -/
def compareProps (selector : String) :
    List ((String × Option String) × (String × Option String)) →
      List MatchEntry × List MismatchEntry
  | [] => ([], [])
  | pq :: rest =>
      let acc := compareProps selector rest
      if cssValuesMatch pq.1.2 pq.2.2 then
        (⟨selector, pq.1.1, pq.1.2⟩ :: acc.1, acc.2)
      else
        (acc.1, ⟨selector, pq.1.1, pq.1.2, pq.2.2⟩ :: acc.2)

/-- The per-selector body of `compareCSSProperties` (lines 178–236): when
both sides have at least one match for the selector, compare the first
elements property by property; otherwise the selector is skipped
entirely. -/
def compareSelector (originalPage generatedPage : Page) (selector : String) :
    List MatchEntry × List MismatchEntry :=
  match originalPage.query selector, generatedPage.query selector with
  | o0 :: _, g0 :: _ => compareProps selector ((propsOf o0).zip (propsOf g0))
  | _, _ => ([], [])

/-- `compareCSSProperties(originalPage, generatedPage)` (lines 159–243):
matches and mismatches accumulated over the fixed selector list in
order. -/
def compareCSSProperties (originalPage generatedPage : Page) :
    List MatchEntry × List MismatchEntry :=
  (selectors.map (compareSelector originalPage generatedPage)).foldr
    (fun x acc => (x.1 ++ acc.1, x.2 ++ acc.2)) ([], [])

/-- The aggregate score (lines 137–141):
`matches / (matches + mismatches) × 100`, as an exact rational.  (When
both counts are zero the source computes `NaN`, which fails the `>= 80`
test just as the conventional value `0` does here.) -/
def matchPercentageValue (matchCount mismatchCount : Nat) : ℚ :=
  ((matchCount : ℚ) / ((matchCount : ℚ) + (mismatchCount : ℚ))) * 100

/-- `Number.prototype.toFixed(2)` for the non-negative exact percentages
produced here: round to the nearest hundredth (ties up) and print two
decimals. -/
def toFixed2 (q : ℚ) : String :=
  let n : Nat := (round (q * 100) : ℤ).toNat
  toString (n / 100) ++ "." ++ (if n % 100 < 10 then "0" else "") ++
    toString (n % 100)

/-- The result record of `comparePages` (lines 75–156), restricted to the
comparison proper: navigation, screenshots and the load-error path are
host effects outside this model. -/
structure PageTestResult where
  page : String
  passed : Bool
  differences : List String
  cssMatches : List MatchEntry
  cssMismatches : List MismatchEntry
  matchPercentage : String

/-- `comparePages(context, originalUrl, generatedUrl, pageName)`, successful
path: run the CSS comparison, compute the percentage, and pass iff it is at
least the fixed 80% threshold. -/
def comparePages (originalPage generatedPage : Page) (pageName : String) :
    PageTestResult :=
  let cssComparison := compareCSSProperties originalPage generatedPage
  let matchPercentage :=
    matchPercentageValue cssComparison.1.length cssComparison.2.length
  { page := pageName
    passed := decide (matchPercentage ≥ 80)
    differences := []
    cssMatches := cssComparison.1
    cssMismatches := cssComparison.2
    matchPercentage := toFixed2 matchPercentage }

/-! ## Sanity checks: the model evaluated on concrete inputs -/

example : isApiCall "https://app.asana.com/api/1.0/tasks" = true := by decide

example : isApiCall "https://x.com/assets/logo.png" = false := by decide

example : isApiCall "https://x.com/api/segment.io/x" = false := by decide

example : cssValuesMatch (some "  bold ") (some "BOLD") = true := by decide

example : toFixed2 (matchPercentageValue 2 1) = "66.67" := by
  norm_num [matchPercentageValue, toFixed2, round_eq]
  decide

/-! ## Claim C2 — `cssValuesMatch` -/

/-- C2 counterexample: the claim asserts
`cssValuesMatch("Rgb( 1 , 2 , 3 )", "rgb(1,2,3)")` returns `true`, but the
source normalization `replace(/\s+/g, " ")` collapses each whitespace run
to a single space instead of removing it, so the two values normalize to
`"rgb( 1 , 2 , 3 )"` and `"rgb(1,2,3)"` and the call returns `false`. -/
theorem claim_C2_counterexample :
    cssValuesMatch (some "Rgb( 1 , 2 , 3 )") (some "rgb(1,2,3)") = false := by
  decide

/-- C2 (amended): `cssValuesMatch` is reflexive and insensitive to case and
to the width of whitespace runs (each run normalizes to one space; the
whitespace is not removed).  Hence `("Rgb( 1 , 2 , 3 )", "rgb( 1 , 2 , 3 )")`
matches while `("Rgb( 1 , 2 , 3 )", "rgb(1,2,3)")` does not;
`(null, "")` matches; `("10px", "11px")` does not. -/
theorem claim_C2_amended :
    (∀ v : Option String, cssValuesMatch v v = true) ∧
    cssValuesMatch (some "Rgb( 1 , 2 , 3 )") (some "rgb( 1 , 2 , 3 )") = true ∧
    cssValuesMatch (some "Rgb( 1 , 2 , 3 )") (some "rgb(1,2,3)") = false ∧
    cssValuesMatch none (some "") = true ∧
    cssValuesMatch (some "10px") (some "11px") = false := by
  refine ⟨fun v => ?_, by decide, by decide, by decide, by decide⟩
  simp [cssValuesMatch]

/-! ## Claim C6 — in-scope classification and the finalized list -/

/-- Membership after `Map.set`: every binding is an old one or the new
binding. -/
theorem mem_mapSet {m : List (Nat × RequestData)} {k : Nat} {v : RequestData}
    {p : Nat × RequestData} (h : p ∈ mapSet m k v) : p ∈ m ∨ p = (k, v) := by
  unfold mapSet at h
  by_cases hk : m.any (fun p => p.1 = k)
  · rw [if_pos hk] at h
    rcases List.mem_map.mp h with ⟨q, hq, hpq⟩
    by_cases hq1 : q.1 = k
    · right
      rw [if_pos hq1] at hpq
      exact hpq.symm
    · left
      rw [if_neg hq1] at hpq
      exact hpq ▸ hq
  · rw [if_neg hk] at h
    rcases List.mem_append.mp h with h | h
    · exact Or.inl h
    · exact Or.inr (List.mem_singleton.mp h)

/-- Membership after `Map.delete`: a sublist of the old bindings. -/
theorem mem_mapDelete {m : List (Nat × RequestData)} {k : Nat}
    {p : Nat × RequestData} (h : p ∈ mapDelete m k) : p ∈ m ∧ p.1 ≠ k := by
  unfold mapDelete at h
  have := List.mem_filter.mp h
  exact ⟨this.1, by simpa using this.2⟩

/-- `Map.get` returns a stored binding. -/
theorem mapGet_mem {m : List (Nat × RequestData)} {k : Nat} {rd : RequestData}
    (h : mapGet m k = some rd) : (k, rd) ∈ m := by
  unfold mapGet at h
  cases hf : m.find? (fun p => p.1 = k) with
  | none => rw [hf] at h; cases h
  | some q =>
      rw [hf] at h
      have hq := List.find?_some hf
      have hmem := List.mem_of_find?_eq_some hf
      cases h
      have : q.1 = k := by simpa using hq
      cases q with
      | mk q1 q2 => cases this; exact hmem

/-- Scope invariant of the correlator: every finalized call and every
pending request has an in-scope URL. -/
def scopeInv (st : CaptureState) : Prop :=
  (∀ c ∈ st.apiCalls, isApiCall c.url = true) ∧
  (∀ p ∈ st.requestMap, isApiCall p.2.url = true)

/-- One event preserves the scope invariant. -/
theorem scopeInv_processEvent (jsonParse : String → Option Json)
    (st : CaptureState) (e : NetEvent) (h : scopeInv st) :
    scopeInv (processEvent jsonParse st e) := by
  obtain ⟨hCalls, hMap⟩ := h
  cases e with
  | request reqId genId url method headers postData timestamp =>
      simp only [processEvent, onRequest]
      by_cases hu : isApiCall url = true
      · rw [if_pos hu]
        refine ⟨hCalls, fun p hp => ?_⟩
        rcases mem_mapSet hp with hp | hp
        · exact hMap p hp
        · subst hp; exact hu
      · rw [if_neg hu]; exact ⟨hCalls, hMap⟩
  | response reqId url status headers textResult =>
      simp only [processEvent, onResponse]
      split
      · exact ⟨hCalls, hMap⟩
      · rename_i requestData hg
        split
        · rename_i hu
          constructor
          · intro c hc
            rcases List.mem_append.mp hc with hc | hc
            · exact hCalls c hc
            · have hrd := hMap _ (mapGet_mem hg)
              split at hc
              · split at hc
                · simp only [Option.toList_some, List.mem_singleton] at hc
                  subst hc; exact hrd
                · simp at hc
              · simp only [Option.toList_some, List.mem_singleton] at hc
                subst hc; exact hrd
          · intro p hp
            exact hMap p (mem_mapDelete hp).1
        · exact ⟨hCalls, hMap⟩

/-- The scope invariant holds after any event stream from any state
satisfying it. -/
theorem scopeInv_foldl (jsonParse : String → Option Json)
    (events : List NetEvent) (st : CaptureState) (h : scopeInv st) :
    scopeInv (events.foldl (processEvent jsonParse) st) := by
  induction events generalizing st with
  | nil => exact h
  | cons e rest ih =>
      exact ih _ (scopeInv_processEvent jsonParse st e h)

/-- C6: in-scope classification is a two-sided filter on the lower-cased
URL — some allow-list fragment must occur and no deny-list fragment may
occur; any URL containing both `/api/` and `.png` is classified
out-of-scope, and every call in the finalized list of any event stream has
an in-scope URL (hence such a URL never appears there). -/
theorem claim_C6 :
    (∀ url : String,
        isApiCall url = true ↔
          (apiPatterns.any (fun pattern => jsIncludes (jsToLower url) pattern) = true ∧
           ∀ pattern ∈ excludePatterns, jsIncludes (jsToLower url) pattern = false)) ∧
    (∀ url : String, jsIncludes (jsToLower url) "/api/" = true →
        jsIncludes (jsToLower url) ".png" = true → isApiCall url = false) ∧
    (∀ (jsonParse : String → Option Json) (events : List NetEvent),
        ∀ c ∈ (processEvents jsonParse events).apiCalls,
          isApiCall c.url = true ∧ jsIncludes (jsToLower c.url) ".png" = false) := by
  have hchar : ∀ url : String,
      isApiCall url = true ↔
        (apiPatterns.any (fun pattern => jsIncludes (jsToLower url) pattern) = true ∧
         ∀ pattern ∈ excludePatterns, jsIncludes (jsToLower url) pattern = false) := by
    intro url
    unfold isApiCall
    rw [Bool.and_eq_true]
    constructor
    · rintro ⟨h1, h2⟩
      refine ⟨h1, fun pattern hp => ?_⟩
      rw [Bool.not_eq_true'] at h2
      rw [List.any_eq_false] at h2
      exact Bool.eq_false_iff.mpr (fun hc => (h2 pattern hp) hc)
    · rintro ⟨h1, h2⟩
      refine ⟨h1, ?_⟩
      rw [Bool.not_eq_true', List.any_eq_false]
      intro pattern hp
      exact Bool.eq_false_iff.mp (h2 pattern hp)
  have hdeny : ∀ url : String, jsIncludes (jsToLower url) "/api/" = true →
      jsIncludes (jsToLower url) ".png" = true → isApiCall url = false := by
    intro url _ hpng
    rcases hcls : isApiCall url with _ | _
    · rfl
    · have := ((hchar url).mp hcls).2 ".png" (by decide)
      rw [hpng] at this
      cases this
  refine ⟨hchar, hdeny, fun jsonParse events c hc => ?_⟩
  have hinv : scopeInv (processEvents jsonParse events) :=
    scopeInv_foldl jsonParse events ⟨[], []⟩ ⟨by simp, by simp⟩
  have hscope := hinv.1 c hc
  refine ⟨hscope, ?_⟩
  rcases hpng : jsIncludes (jsToLower c.url) ".png" with _ | _
  · rfl
  · have := ((hchar c.url).mp hscope).2 ".png" (by decide)
    rw [hpng] at this
    cases this

/-- A concrete instantiation of the `JSON.parse` parameter for the closed
statements below.  Every string it is actually applied to in those
statements (only `"not json"`) is not valid JSON, on which the host
`JSON.parse` throws a `SyntaxError` — modelled as `none`. -/
def failingParse : String → Option Json := fun _ => none

/-- A concrete in-scope request event. -/
def sampleReqEvent : NetEvent :=
  .request 1 "req_5_abc" "https://x.com/api/tasks" "GET" [] none 5

/-- The matching plain-text response event. -/
def sampleRespEvent : NetEvent :=
  .response 1 "https://x.com/api/tasks" 200
    [("content-type", "text/plain")] (some "ok")

/-- A request/response pair observed in order. -/
def sampleEvents : List NetEvent := [sampleReqEvent, sampleRespEvent]

/-- The finalized call produced by `sampleEvents`. -/
def sampleCall : ApiCallRec :=
  ⟨⟨"req_5_abc", "https://x.com/api/tasks", "GET", [], none, 5⟩,
   ⟨200, [("content-type", "text/plain")], .raw "ok", "text/plain"⟩⟩

/-- C6 witness: `https://x.com/api/logo.png` contains both `/api/` and
`.png` and is classified out-of-scope, while a concrete processed stream
shows a finalized call is in scope and free of `.png`. -/
theorem claim_C6_witness :
    (jsIncludes (jsToLower "https://x.com/api/logo.png") "/api/" = true ∧
     jsIncludes (jsToLower "https://x.com/api/logo.png") ".png" = true ∧
     isApiCall "https://x.com/api/logo.png" = false) ∧
    (sampleCall ∈ (processEvents failingParse sampleEvents).apiCalls ∧
     isApiCall sampleCall.url = true ∧
     jsIncludes (jsToLower sampleCall.url) ".png" = false) := by
  have hmem : sampleCall ∈ (processEvents failingParse sampleEvents).apiCalls := by
    have hstate : (processEvents failingParse sampleEvents).apiCalls =
        [sampleCall] := rfl
    rw [hstate]
    exact List.mem_singleton.mpr rfl
  exact ⟨⟨by decide, by decide, claim_C6.2.1 _ (by decide) (by decide)⟩,
    ⟨hmem, claim_C6.2.2 failingParse sampleEvents sampleCall hmem⟩⟩

/-! ## Claim C1 — response body read/parse failures -/

/-- C1 counterexample: the claim asserts that when parsing the response
body fails the ApiCall is still recorded with a null body.  In the source,
`JSON.parse` throwing lands in the `catch` block before `apiCalls.push`
runs, so nothing is recorded: for an in-scope request/response pair whose
response declares `content-type: application/json` with body `"not json"`
(on which `JSON.parse` throws), the finalized list stays empty — and the
pending entry is still evicted, so re-processing cannot recover it. -/
theorem claim_C1_counterexample :
    processEvents failingParse
        [.request 1 "req_5_abc" "https://x.com/api/tasks" "GET" [] none 5,
         .response 1 "https://x.com/api/tasks" 200
           [("content-type", "application/json")] (some "not json")] =
      ⟨[], []⟩ := rfl

/-- C1 (amended): a response whose body READ fails (`response.text()`
rejects, caught to `null`) is recorded with a null body and the pending
entry is evicted; but a response whose body PARSE fails (`JSON.parse`
throws on a truthy body under a JSON content type) is dropped — nothing is
recorded — although the pending entry is still evicted. -/
theorem claim_C1_amended :
    ∀ (jsonParse : String → Option Json) (st : CaptureState) (reqId : Nat)
      (requestData : RequestData) (url : String) (status : Nat)
      (headers : List (String × String)),
      mapGet st.requestMap reqId = some requestData →
      isApiCall url = true →
      (onResponse jsonParse st reqId url status headers none =
        ⟨st.apiCalls ++
           [⟨requestData, ⟨status, headers, .null,
              headerLookup headers "content-type"⟩⟩],
         mapDelete st.requestMap reqId⟩) ∧
      (∀ bodyText : String,
        jsIncludes (headerLookup headers "content-type")
            "application/json" = true →
        bodyText ≠ "" →
        jsonParse bodyText = none →
        onResponse jsonParse st reqId url status headers (some bodyText) =
          ⟨st.apiCalls, mapDelete st.requestMap reqId⟩) := by
  intro jsonParse st reqId requestData url status headers hget hurl
  constructor
  · unfold onResponse
    rw [hget]
    simp only [hurl, if_true]
    have hcond : ¬(jsIncludes (headerLookup headers "content-type")
        "application/json" = true ∧ jsTruthy (none : Option String) = true) := by
      rintro ⟨-, hfalse⟩
      simp [jsTruthy] at hfalse
    rw [if_neg hcond]
    simp [bodyOfText]
  · intro bodyText hct hne hparse
    unfold onResponse
    rw [hget]
    simp only [hurl, if_true]
    have hcond : jsIncludes (headerLookup headers "content-type")
        "application/json" = true ∧ jsTruthy (some bodyText) = true := by
      exact ⟨hct, by simp [jsTruthy, hne]⟩
    rw [if_pos hcond]
    simp [hparse]

/-- A concrete one-entry pending state for the C1 witness. -/
def samplePending : CaptureState :=
  ⟨[], [(1, ⟨"req_5_abc", "https://x.com/api/tasks", "GET", [], none, 5⟩)]⟩

/-- C1 witness: the amended statement applied at a concrete pending state,
a read-failure response and a parse-failure response. -/
theorem claim_C1_amended_witness :
    (mapGet samplePending.requestMap 1 =
        some ⟨"req_5_abc", "https://x.com/api/tasks", "GET", [], none, 5⟩ ∧
     isApiCall "https://x.com/api/tasks" = true ∧
     jsIncludes (headerLookup [("content-type", "application/json")]
        "content-type") "application/json" = true ∧
     "not json" ≠ "" ∧
     failingParse "not json" = none) ∧
    (onResponse failingParse samplePending 1 "https://x.com/api/tasks" 200
        [("content-type", "application/json")] none =
      ⟨[⟨⟨"req_5_abc", "https://x.com/api/tasks", "GET", [], none, 5⟩,
          ⟨200, [("content-type", "application/json")], .null,
            "application/json"⟩⟩],
       []⟩) ∧
    (onResponse failingParse samplePending 1 "https://x.com/api/tasks" 200
        [("content-type", "application/json")] (some "not json") =
      ⟨[], []⟩) := by
  have h := claim_C1_amended failingParse samplePending 1
    ⟨"req_5_abc", "https://x.com/api/tasks", "GET", [], none, 5⟩
    "https://x.com/api/tasks" 200 [("content-type", "application/json")]
    rfl (by decide)
  refine ⟨⟨rfl, by decide, by decide, by decide, rfl⟩, ?_, ?_⟩
  · exact h.1
  · exact h.2 "not json" (by decide) (by decide) rfl

/-! ## Claim C7 — requests without responses are never finalized -/

/-- Whether an event is a response whose request identity is `r`. -/
def isResponseFor (r : Nat) : NetEvent → Bool
  | .response rid _ _ _ _ => rid = r
  | _ => false

/-- Whether an event is a request carrying generated id `g` under a
request identity other than `r` (used to state that `g` is unique to the
request `r`). -/
def genIdElsewhere (g : String) (r : Nat) : NetEvent → Bool
  | .request rid gid _ _ _ _ _ => gid = g && !(rid = r : Bool)
  | _ => false

/-- Whether an event is a request with identity `r` and an in-scope URL. -/
def isScopedRequestFor (r : Nat) : NetEvent → Bool
  | .request rid _ url _ _ _ _ => (rid = r : Bool) && isApiCall url
  | _ => false

/-- The C7 invariant: no finalized call carries the generated id `g`, and
any pending entry carrying `g` sits under the key `r`. -/
def c7Inv (g : String) (r : Nat) (st : CaptureState) : Prop :=
  (∀ c ∈ st.apiCalls, c.id ≠ g) ∧
  (∀ p ∈ st.requestMap, p.2.id = g → p.1 = r)

/-- One event that is neither a response for `r` nor a foreign request
with id `g` preserves the C7 invariant. -/
theorem c7Inv_step (jsonParse : String → Option Json) (g : String) (r : Nat)
    (st : CaptureState) (e : NetEvent)
    (hresp : isResponseFor r e = false) (hgen : genIdElsewhere g r e = false)
    (h : c7Inv g r st) : c7Inv g r (processEvent jsonParse st e) := by
  obtain ⟨hCalls, hMap⟩ := h
  cases e with
  | request rid gid url method headers postData timestamp =>
      simp only [processEvent, onRequest]
      split
      · refine ⟨hCalls, fun p hp hpg => ?_⟩
        rcases mem_mapSet hp with hp | hp
        · exact hMap p hp hpg
        · subst hp
          simp only [genIdElsewhere, Bool.and_eq_false_iff] at hgen
          rcases hgen with hgen | hgen
          · exact absurd hpg (by simpa using hgen)
          · simpa using hgen
      · exact ⟨hCalls, hMap⟩
  | response rid url status headers textResult =>
      have hrid : rid ≠ r := by simpa [isResponseFor] using hresp
      simp only [processEvent, onResponse]
      split
      · exact ⟨hCalls, hMap⟩
      · rename_i requestData hget
        split
        · have hrd : requestData.id ≠ g := fun hg =>
            hrid (hMap _ (mapGet_mem hget) hg)
          constructor
          · intro c hc
            rcases List.mem_append.mp hc with hc | hc
            · exact hCalls c hc
            · split at hc
              · split at hc
                · simp only [Option.toList_some, List.mem_singleton] at hc
                  subst hc; exact hrd
                · simp at hc
              · simp only [Option.toList_some, List.mem_singleton] at hc
                subst hc; exact hrd
          · intro p hp
            exact hMap p (mem_mapDelete hp).1
        · exact ⟨hCalls, hMap⟩

/-- The C7 invariant is preserved by a whole event stream free of
responses for `r` and of foreign requests with id `g`. -/
theorem c7Inv_foldl (jsonParse : String → Option Json) (g : String) (r : Nat)
    (events : List NetEvent) (st : CaptureState)
    (hresp : events.all (fun e => !(isResponseFor r e)) = true)
    (hgen : events.all (fun e => !(genIdElsewhere g r e)) = true)
    (h : c7Inv g r st) :
    c7Inv g r (events.foldl (processEvent jsonParse) st) := by
  induction events generalizing st with
  | nil => exact h
  | cons e rest ih =>
      rw [List.all_cons, Bool.and_eq_true] at hresp hgen
      exact ih _ hresp.2 hgen.2
        (c7Inv_step jsonParse g r st e (by simpa using hresp.1)
          (by simpa using hgen.1) h)

/-- `Map.set` leaves every present key present. -/
theorem any_key_mapSet {m : List (Nat × RequestData)} {k r : Nat}
    {v : RequestData} (h : m.any (fun p => p.1 = r) = true) :
    (mapSet m k v).any (fun p => p.1 = r) = true := by
  rcases List.any_eq_true.mp h with ⟨q, hq, hq1⟩
  have hq1 : q.1 = r := by simpa using hq1
  unfold mapSet
  split
  · refine List.any_eq_true.mpr ?_
    by_cases hqk : q.1 = k
    · refine ⟨(k, v), ?_, by simp [← hqk, hq1]⟩
      rw [List.mem_map]
      exact ⟨q, hq, by rw [if_pos hqk]⟩
    · refine ⟨q, ?_, by simp [hq1]⟩
      rw [List.mem_map]
      exact ⟨q, hq, by rw [if_neg hqk]⟩
  · exact List.any_eq_true.mpr ⟨q, List.mem_append_left _ hq, by simp [hq1]⟩

/-- After `Map.set m k v` the key `k` is present. -/
theorem any_key_mapSet_self {m : List (Nat × RequestData)} {k : Nat}
    {v : RequestData} : (mapSet m k v).any (fun p => p.1 = k) = true := by
  unfold mapSet
  split
  · rename_i hk
    rcases List.any_eq_true.mp hk with ⟨q, hq, hq1⟩
    have hq1 : q.1 = k := by simpa using hq1
    refine List.any_eq_true.mpr ⟨(k, v), ?_, by simp⟩
    rw [List.mem_map]
    exact ⟨q, hq, by rw [if_pos hq1]⟩
  · exact List.any_eq_true.mpr ⟨(k, v), List.mem_append_right _ (by simp),
      by simp⟩

/-- An event that is not a response for `r` keeps the key `r` pending. -/
theorem key_preserved_step (jsonParse : String → Option Json) (r : Nat)
    (st : CaptureState) (e : NetEvent)
    (hresp : isResponseFor r e = false)
    (h : st.requestMap.any (fun p => p.1 = r) = true) :
    (processEvent jsonParse st e).requestMap.any (fun p => p.1 = r) = true := by
  cases e with
  | request rid gid url method headers postData timestamp =>
      simp only [processEvent, onRequest]
      split
      · exact any_key_mapSet h
      · exact h
  | response rid url status headers textResult =>
      have hrid : rid ≠ r := by simpa [isResponseFor] using hresp
      simp only [processEvent, onResponse]
      split
      · exact h
      · split
        · rcases List.any_eq_true.mp h with ⟨q, hq, hq1⟩
          have hq1 : q.1 = r := by simpa using hq1
          refine List.any_eq_true.mpr ⟨q, ?_, by simp [hq1]⟩
          unfold mapDelete
          refine List.mem_filter.mpr ⟨hq, ?_⟩
          have hqne : ¬ q.1 = rid := by
            rw [hq1]
            exact fun hcontra => hrid hcontra.symm
          simpa using hqne
        · exact h

/-- A stream free of responses for `r` keeps the key `r` pending. -/
theorem key_preserved_foldl (jsonParse : String → Option Json) (r : Nat)
    (events : List NetEvent) (st : CaptureState)
    (hresp : events.all (fun e => !(isResponseFor r e)) = true)
    (h : st.requestMap.any (fun p => p.1 = r) = true) :
    (events.foldl (processEvent jsonParse) st).requestMap.any
      (fun p => p.1 = r) = true := by
  induction events generalizing st with
  | nil => exact h
  | cons e rest ih =>
      rw [List.all_cons, Bool.and_eq_true] at hresp
      exact ih _ hresp.2
        (key_preserved_step jsonParse r st e (by simpa using hresp.1) h)

/-- A stream free of responses for `r` that contains an in-scope request
with identity `r` ends with the key `r` pending, from any state. -/
theorem key_established_foldl (jsonParse : String → Option Json) (r : Nat)
    (events : List NetEvent) (st : CaptureState)
    (hresp : events.all (fun e => !(isResponseFor r e)) = true)
    (hany : events.any (isScopedRequestFor r) = true) :
    (events.foldl (processEvent jsonParse) st).requestMap.any
      (fun p => p.1 = r) = true := by
  induction events generalizing st with
  | nil => simp at hany
  | cons e rest ih =>
      rw [List.all_cons, Bool.and_eq_true] at hresp
      rw [List.any_cons, Bool.or_eq_true] at hany
      rw [List.foldl_cons]
      rcases hany with hany | hany
      · refine key_preserved_foldl jsonParse r rest _ hresp.2 ?_
        cases e with
        | request rid gid url method headers postData timestamp =>
            simp only [isScopedRequestFor, Bool.and_eq_true] at hany
            have hr : rid = r := by simpa using hany.1
            subst hr
            simp only [processEvent, onRequest]
            rw [if_pos hany.2]
            show (mapSet st.requestMap rid
                ⟨gid, url, method, headers, postData, timestamp⟩).any
              (fun p => p.1 = rid) = true
            exact any_key_mapSet_self
        | response _ _ _ _ _ => simp [isScopedRequestFor] at hany
      · exact ih _ hresp.2 hany

/-- C7: given an event stream containing no response for request identity
`r`, and in which the generated id `g` is carried only by requests with
identity `r`, no finalized call carries `g`; if the stream contains an
in-scope request with identity `r`, that request is still in the pending
map at the end; and flushing (`saveToFile`) returns the finalized list
without changing the state, so repeated flushes can never emit it. -/
theorem claim_C7 :
    ∀ (jsonParse : String → Option Json) (events : List NetEvent)
      (r : Nat) (g : String),
      events.all (fun e => !(isResponseFor r e)) = true →
      events.all (fun e => !(genIdElsewhere g r e)) = true →
      (∀ c ∈ (processEvents jsonParse events).apiCalls, c.id ≠ g) ∧
      (events.any (isScopedRequestFor r) = true →
        (processEvents jsonParse events).requestMap.any
          (fun p => p.1 = r) = true) ∧
      saveToFile (processEvents jsonParse events) =
        ((processEvents jsonParse events).apiCalls,
         processEvents jsonParse events) := by
  intro jsonParse events r g hresp hgen
  exact ⟨(c7Inv_foldl jsonParse g r events ⟨[], []⟩ hresp hgen
      ⟨by simp, by simp⟩).1,
    fun hany => key_established_foldl jsonParse r events ⟨[], []⟩ hresp hany,
    rfl⟩

/-- C7 witness: a single in-scope request with no response; afterwards the
finalized list carries nothing with its generated id, the request is still
pending, and flushing returns the list unchanged. -/
theorem claim_C7_witness :
    ([sampleReqEvent].all (fun e => !(isResponseFor 1 e)) = true ∧
     [sampleReqEvent].all
        (fun e => !(genIdElsewhere "req_5_abc" 1 e)) = true ∧
     [sampleReqEvent].any (isScopedRequestFor 1) = true) ∧
    ((∀ c ∈ (processEvents failingParse [sampleReqEvent]).apiCalls,
        c.id ≠ "req_5_abc") ∧
     (processEvents failingParse [sampleReqEvent]).requestMap.any
        (fun p => p.1 = 1) = true ∧
     saveToFile (processEvents failingParse [sampleReqEvent]) =
        ((processEvents failingParse [sampleReqEvent]).apiCalls,
         processEvents failingParse [sampleReqEvent])) := by
  have h := claim_C7 failingParse [sampleReqEvent] 1 "req_5_abc"
    (by decide) (by decide)
  exact ⟨⟨by decide, by decide, by decide⟩, h.1, h.2.1 (by decide), h.2.2⟩

/-! ## Claims C3, C4, C5, C10 — the DOM snapshot extractor -/

/-- Provenance of extracted children: every node in the output of the
child loop comes from an element child of the input forest that is not a
`<script>`/`<style>` and whose rendered box has strictly positive width
and height, extracted at the next depth. -/
theorem mem_extractChildren (f : DForest) (depth : Nat) (c' : ExtractedNode)
    (h : c' ∈ extractChildren f depth) :
    ∃ c : DNode, c ∈ f.toList ∧ c.isElem = true ∧
      c.tagName ≠ "SCRIPT" ∧ c.tagName ≠ "STYLE" ∧
      c.rect.width > 0 ∧ c.rect.height > 0 ∧
      extractElement c (depth + 1) = some c' := by
  match f with
  | .nil => simp [extractChildren] at h
  | .cons child rest =>
      unfold extractChildren at h
      have tailCase : c' ∈ extractChildren rest depth →
          ∃ c : DNode, c ∈ (DForest.cons child rest).toList ∧
            c.isElem = true ∧ c.tagName ≠ "SCRIPT" ∧ c.tagName ≠ "STYLE" ∧
            c.rect.width > 0 ∧ c.rect.height > 0 ∧
            extractElement c (depth + 1) = some c' := by
        intro hrest
        obtain ⟨c, hc1, hc⟩ := mem_extractChildren rest depth c' hrest
        exact ⟨c, by simp [DForest.toList]; exact Or.inr hc1, hc⟩
      split at h
      · rename_i ctag cid ccls cattrs cstyle crect ccs
        split at h
        · exact tailCase h
        · rename_i htag
          push_neg at htag
          split at h
          · rename_i hbox
            split at h
            · rename_i cd hcd
              rcases List.mem_cons.mp h with hc | hc
              · subst hc
                refine ⟨.element ctag cid ccls cattrs cstyle crect ccs,
                  by simp [DForest.toList], rfl, ?_, ?_, hbox.1, hbox.2, hcd⟩
                · simpa [DNode.tagName] using htag.1
                · simpa [DNode.tagName] using htag.2
              · exact tailCase hc
            · exact tailCase h
          · exact tailCase h
      · exact tailCase h

/-- A list bound for `heightList` from bounds on its members. -/
theorem heightList_le {L : List ExtractedNode} {m : Nat}
    (h : ∀ c ∈ L, heightE c < m) : heightList L ≤ m := by
  induction L with
  | nil => simp [heightList]
  | cons c cs ih =>
      rw [heightList]
      refine max_le ?_ (ih fun x hx => h x (List.mem_cons_of_mem c hx))
      have := h c (List.mem_cons_self c cs)
      omega

/-- Height of any extracted subtree is below the remaining depth budget. -/
theorem extract_height_bound (k : Nat) :
    ∀ (e : DNode) (d : Nat) (n : ExtractedNode), 16 - d ≤ k →
      extractElement e d = some n → heightE n < 16 - d := by
  induction k with
  | zero =>
      intro e d n hk h
      have hd : d > 15 := by omega
      unfold extractElement at h
      rw [if_pos hd] at h
      cases h
  | succ k ih =>
      intro e d n hk h
      by_cases hd : d > 15
      · unfold extractElement at h
        rw [if_pos hd] at h
        cases h
      · unfold extractElement at h
        rw [if_neg hd] at h
        split at h
        · rename_i tagName idAttr classList attributes style rect childNodes
          cases h
          rw [heightE]
          have hmem : ∀ c' ∈ extractChildren childNodes d,
              heightE c' < 15 - d := by
            intro c' hc'
            obtain ⟨c, -, -, -, -, -, -, hex⟩ :=
              mem_extractChildren childNodes d c' hc'
            have := ih c (d + 1) c' (by omega) hex
            omega
          have := heightList_le hmem
          omega
        · cases h
        · cases h

/-- C3: in every snapshot the extractor produces, no node lies deeper
than 15 levels below the node handed to `extractElement` at depth 0 (the
detected root): starting at depth `d`, the subtree height is at most
`15 - d`.  Past the bound the recursion returns a null branch, which the
child loop never includes. -/
theorem claim_C3 :
    (∀ (element : DNode) (depth : Nat),
        match extractElement element depth with
        | some root => depth + heightE root ≤ 15
        | none => True) ∧
    (∀ (element : DNode) (extra : Nat),
        extractElement element (16 + extra) = none) := by
  constructor
  · intro e d
    cases h : extractElement e d with
    | none => trivial
    | some root =>
        have hlt := extract_height_bound (16 - d) e d root (le_refl _) h
        by_cases hd : d > 15
        · unfold extractElement at h
          rw [if_pos hd] at h
          cases h
        · omega
  · intro e extra
    unfold extractElement
    rw [if_pos (by omega : 16 + extra > 15)]

/-- C4: every child of every node of an extracted snapshot stems from an
element child of the corresponding source node that is not `<script>` or
`<style>` and whose rendered box had strictly positive width and height;
anything else (with its whole subtree) is pruned. -/
theorem claim_C4 :
    ∀ (e : DNode) (d : Nat) (n : ExtractedNode),
      extractElement e d = some n →
      ∀ c ∈ n.children,
        ∃ src : DNode, src ∈ (DNode.childNodes e).toList ∧
          src.isElem = true ∧ src.tagName ≠ "SCRIPT" ∧
          src.tagName ≠ "STYLE" ∧ src.rect.width > 0 ∧
          src.rect.height > 0 ∧ extractElement src (d + 1) = some c := by
  intro e d n h c hc
  by_cases hd : d > 15
  · unfold extractElement at h
    rw [if_pos hd] at h
    cases h
  · unfold extractElement at h
    rw [if_neg hd] at h
    split at h
    · rename_i tagName idAttr classList attributes style rect childNodes
      cases h
      rw [ExtractedNode.children] at hc
      simpa [DNode.childNodes] using mem_extractChildren childNodes d c hc
    · cases h
    · cases h

/-- C5: the `textContent` field of an extracted node is populated exactly
when the source element had exactly one child node and that child was a
text node (`nodeType` 3); its value is then that text, trimmed. -/
theorem claim_C5 :
    ∀ (e : DNode) (d : Nat) (n : ExtractedNode),
      extractElement e d = some n →
      (n.textContent.isSome = true ↔
        ((DNode.childNodes e).length = 1 ∧
         Option.map DNode.nodeType (DNode.childNodes e).toList.head? =
           some 3)) ∧
      (∀ s : String, DNode.childNodes e = .cons (.textNode s) .nil →
        n.textContent = some (jsTrim s)) := by
  intro e d n h
  by_cases hd : d > 15
  · unfold extractElement at h
    rw [if_pos hd] at h
    cases h
  · unfold extractElement at h
    rw [if_neg hd] at h
    split at h
    · rename_i tagName idAttr classList attributes style rect childNodes
      cases h
      rw [ExtractedNode.textContent, DNode.childNodes]
      cases childNodes with
      | nil => simp [DForest.length, DForest.toList]
      | cons c tl =>
          cases tl with
          | nil =>
              cases c with
              | element t i cl a st r cc =>
                  simp [DForest.length, DForest.toList, DNode.nodeType]
              | textNode s =>
                  simp [DForest.length, DForest.toList, DNode.nodeType]
              | comment s =>
                  simp [DForest.length, DForest.toList, DNode.nodeType]
          | cons c2 tl2 =>
              constructor
              · constructor
                · intro habs
                  exfalso
                  cases c <;> simp at habs
                · intro habs
                  exfalso
                  have := habs.1
                  simp [DForest.length] at this
              · intro s hs
                cases hs
    · cases h
    · cases h

/-- C10: the detected root is always included as the snapshot's root node,
whatever its own bounding box: `extractElement` applies no visibility
filter to its argument, and `analyzeDOMStructure` hands the detected root
to it at depth 0 unconditionally. -/
theorem claim_C10 :
    (∀ e : DNode, e.isElem = true → (extractElement e 0).isSome = true) ∧
    (∀ doc : Document, (detectRoot doc).isElem = true →
      (analyzeDOMStructure doc).tree = extractElement (detectRoot doc) 0 ∧
      ((analyzeDOMStructure doc).tree).isSome = true) := by
  have hext : ∀ e : DNode, e.isElem = true →
      (extractElement e 0).isSome = true := by
    intro e he
    cases e with
    | element tagName idAttr classList attributes style rect childNodes =>
        unfold extractElement
        rw [if_neg (by omega : ¬ (0 : Nat) > 15)]
        rfl
    | textNode s => simp [DNode.isElem] at he
    | comment s => simp [DNode.isElem] at he
  refine ⟨hext, fun doc hroot => ⟨rfl, ?_⟩⟩
  show (extractElement (detectRoot doc) 0).isSome = true
  exact hext _ hroot

/-- A visible `<span>` with a single text child. -/
def sampleSpan : DNode :=
  .element "SPAN" "" [] [] blankStyle ⟨0, 0, 10, 10⟩
    (.cons (.textNode " hello ") .nil)

/-- A zero-width (hidden) paragraph. -/
def sampleHidden : DNode :=
  .element "P" "" [] [] blankStyle ⟨0, 0, 0, 5⟩ .nil

/-- A visible `<script>` element. -/
def sampleScript : DNode :=
  .element "SCRIPT" "" [] [] blankStyle ⟨0, 0, 10, 10⟩ .nil

/-- A root `<div>` whose own bounding box is zero-sized, with one visible
child, one hidden child and one script child. -/
def sampleRoot : DNode :=
  .element "DIV" "app" ["container"] [] blankStyle ⟨0, 0, 0, 0⟩
    (.cons sampleSpan (.cons sampleHidden (.cons sampleScript .nil)))

/-- The snapshot of `sampleSpan`. -/
def sampleSpanOut : ExtractedNode :=
  .mk "span" none [] [] blankStyle (some "hello") ⟨0, 0, 10, 10⟩ []

/-- The snapshot of `sampleRoot`: the hidden and script children are
pruned, the root itself is kept despite its zero box. -/
def sampleRootOut : ExtractedNode :=
  .mk "div" (some "app") ["container"] [] blankStyle none ⟨0, 0, 0, 0⟩
    [sampleSpanOut]

/-- C4 witness: the single surviving child of the concrete snapshot stems
from a positive-box, non-script element child. -/
theorem claim_C4_witness :
    (extractElement sampleRoot 0 = some sampleRootOut ∧
     sampleSpanOut ∈ sampleRootOut.children) ∧
    (∃ src : DNode, src ∈ (DNode.childNodes sampleRoot).toList ∧
      src.isElem = true ∧ src.tagName ≠ "SCRIPT" ∧ src.tagName ≠ "STYLE" ∧
      src.rect.width > 0 ∧ src.rect.height > 0 ∧
      extractElement src (0 + 1) = some sampleSpanOut) := by
  have hmem : sampleSpanOut ∈ sampleRootOut.children := by
    show sampleSpanOut ∈ [sampleSpanOut]
    exact List.mem_singleton.mpr rfl
  exact ⟨⟨rfl, hmem⟩, claim_C4 sampleRoot 0 sampleRootOut rfl sampleSpanOut hmem⟩

/-- C5 witness: the concrete span's text field is populated, and matches
the single text child trimmed. -/
theorem claim_C5_witness :
    extractElement sampleSpan 1 = some sampleSpanOut ∧
    (sampleSpanOut.textContent.isSome = true ↔
      ((DNode.childNodes sampleSpan).length = 1 ∧
       Option.map DNode.nodeType (DNode.childNodes sampleSpan).toList.head? =
         some 3)) ∧
    (∀ s : String, DNode.childNodes sampleSpan = .cons (.textNode s) .nil →
      sampleSpanOut.textContent = some (jsTrim s)) :=
  ⟨rfl, claim_C5 sampleSpan 1 sampleSpanOut rfl⟩

/-- A document whose body is `sampleRoot` (no `[role="main"]`, `#root` or
`.app` candidates, so the body itself is detected as root). -/
def sampleDoc : Document :=
  ⟨"Asana", "https://app.asana.com/0/home", 1920, 1080, sampleRoot⟩

/-- C10 witness: the detected root of the concrete document has a
zero-sized box and is still extracted as the snapshot root. -/
theorem claim_C10_witness :
    ((detectRoot sampleDoc).isElem = true ∧
     (detectRoot sampleDoc).rect.width = 0) ∧
    ((analyzeDOMStructure sampleDoc).tree =
        extractElement (detectRoot sampleDoc) 0 ∧
     ((analyzeDOMStructure sampleDoc).tree).isSome = true) :=
  ⟨⟨rfl, rfl⟩, claim_C10.2 sampleDoc rfl⟩

/-! ## Claims C8 and C9 — the comparison score -/

/-- `cssValuesMatch` is symmetric. -/
theorem cssValuesMatch_comm (a b : Option String) :
    cssValuesMatch a b = cssValuesMatch b a := by
  unfold cssValuesMatch
  by_cases h : cssNormalize a = cssNormalize b
  · rw [h]
  · rw [beq_eq_false_iff_ne.mpr h, beq_eq_false_iff_ne.mpr (Ne.symm h)]

/-- Exchange the `original` and `generated` fields of a mismatch entry. -/
def swapMismatch (m : MismatchEntry) : MismatchEntry :=
  ⟨m.selector, m.property, m.generated, m.original⟩

/-- Swapping the two sides of the property loop: same number of matches,
and mismatch entries with `original`/`generated` exchanged (the property
keys of each pair agree, as they do for the fixed eight-key vectors). -/
theorem compareProps_swap (sel : String)
    (pairs : List ((String × Option String) × (String × Option String)))
    (hkeys : ∀ pq ∈ pairs, pq.1.1 = pq.2.1) :
    (compareProps sel (pairs.map Prod.swap)).1.length =
      (compareProps sel pairs).1.length ∧
    (compareProps sel (pairs.map Prod.swap)).2 =
      (compareProps sel pairs).2.map swapMismatch := by
  induction pairs with
  | nil => simp [compareProps]
  | cons pq rest ih =>
      have hk := hkeys pq (List.mem_cons_self _ _)
      have ihr := ih (fun q hq => hkeys q (List.mem_cons_of_mem _ hq))
      simp only [List.map_cons, compareProps]
      rw [show (Prod.swap pq).1 = pq.2 from rfl,
        show (Prod.swap pq).2 = pq.1 from rfl,
        cssValuesMatch_comm pq.2.2 pq.1.2]
      by_cases hc : cssValuesMatch pq.1.2 pq.2.2 = true
      · simp only [hc, if_true]
        exact ⟨by simp [ihr.1], ihr.2⟩
      · rw [Bool.not_eq_true] at hc
        simp only [hc, Bool.false_eq_true, if_false]
        exact ⟨ihr.1, by simp [ihr.2, swapMismatch, hk]⟩

/-- The keys of zipped property vectors agree pairwise. -/
theorem propsOf_zip_keys (a b : StyleVec) :
    ∀ pq ∈ (propsOf a).zip (propsOf b), pq.1.1 = pq.2.1 := by
  intro pq hpq
  simp only [propsOf, List.zip_cons_cons, List.zip_nil_right,
    List.mem_cons, List.not_mem_nil, or_false] at hpq
  rcases hpq with h | h | h | h | h | h | h | h <;> subst h <;> rfl

/-- Swapping the two pages in one selector comparison. -/
theorem compareSelector_swap (originalPage generatedPage : Page)
    (sel : String) :
    (compareSelector generatedPage originalPage sel).1.length =
      (compareSelector originalPage generatedPage sel).1.length ∧
    (compareSelector generatedPage originalPage sel).2 =
      (compareSelector originalPage generatedPage sel).2.map swapMismatch := by
  cases ho : originalPage.query sel with
  | nil =>
      cases hg : generatedPage.query sel with
      | nil => simp [compareSelector, ho, hg]
      | cons g0 gt => simp [compareSelector, ho, hg]
  | cons o0 ot =>
      cases hg : generatedPage.query sel with
      | nil => simp [compareSelector, ho, hg]
      | cons g0 gt =>
          simp only [compareSelector, ho, hg]
          rw [← List.zip_swap (propsOf o0) (propsOf g0)]
          exact compareProps_swap sel _ (propsOf_zip_keys o0 g0)

/-- The selector fold of `compareCSSProperties`, generalized over the
selector list. -/
def compareFold (originalPage generatedPage : Page) (sels : List String) :
    List MatchEntry × List MismatchEntry :=
  (sels.map (compareSelector originalPage generatedPage)).foldr
    (fun x acc => (x.1 ++ acc.1, x.2 ++ acc.2)) ([], [])

/-- `compareCSSProperties` is the selector fold over the fixed list. -/
theorem compareCSSProperties_eq_fold (originalPage generatedPage : Page) :
    compareCSSProperties originalPage generatedPage =
      compareFold originalPage generatedPage selectors := rfl

/-- Swapping the two pages across the whole selector fold. -/
theorem compareFold_swap (originalPage generatedPage : Page)
    (sels : List String) :
    (compareFold generatedPage originalPage sels).1.length =
      (compareFold originalPage generatedPage sels).1.length ∧
    (compareFold generatedPage originalPage sels).2 =
      (compareFold originalPage generatedPage sels).2.map swapMismatch := by
  induction sels with
  | nil => simp [compareFold]
  | cons sel rest ih =>
      have hsel := compareSelector_swap originalPage generatedPage sel
      simp only [compareFold, List.map_cons, List.foldr_cons]
      constructor
      · simp only [List.length_append, hsel.1]
        exact congrArg _ ih.1
      · rw [List.map_append, hsel.2]
        exact congrArg _ ih.2

/-- C9: swapping which page is treated as original and which as
reproduction maps each mismatch entry to the same entry with its
`original` and `generated` fields exchanged, and leaves the number of
mismatches, the number of matches, the printed match percentage and the
pass verdict unchanged. -/
theorem claim_C9 :
    ∀ (originalPage generatedPage : Page) (pageName : String),
      (compareCSSProperties generatedPage originalPage).2 =
        (compareCSSProperties originalPage generatedPage).2.map
          swapMismatch ∧
      (compareCSSProperties generatedPage originalPage).2.length =
        (compareCSSProperties originalPage generatedPage).2.length ∧
      (compareCSSProperties generatedPage originalPage).1.length =
        (compareCSSProperties originalPage generatedPage).1.length ∧
      (comparePages generatedPage originalPage pageName).matchPercentage =
        (comparePages originalPage generatedPage pageName).matchPercentage ∧
      (comparePages generatedPage originalPage pageName).passed =
        (comparePages originalPage generatedPage pageName).passed := by
  intro originalPage generatedPage pageName
  have hswap := compareFold_swap originalPage generatedPage selectors
  rw [compareCSSProperties_eq_fold, compareCSSProperties_eq_fold]
  have hlen2 : (compareFold generatedPage originalPage selectors).2.length =
      (compareFold originalPage generatedPage selectors).2.length := by
    rw [hswap.2, List.length_map]
  refine ⟨hswap.2, hlen2, hswap.1, ?_, ?_⟩ <;>
    simp only [comparePages, compareCSSProperties_eq_fold, hswap.1, hlen2]

/-- Whether both pages have a first element for the selector and all eight
property values match. -/
def selectorFullMatch (originalPage generatedPage : Page) (sel : String) :
    Bool :=
  match originalPage.query sel, generatedPage.query sel with
  | o0 :: _, g0 :: _ =>
      ((propsOf o0).zip (propsOf g0)).all
        (fun pq => cssValuesMatch pq.1.2 pq.2.2)
  | _, _ => false

/-- A fully matching property loop yields one match per pair and no
mismatch. -/
theorem compareProps_allMatch (sel : String)
    (pairs : List ((String × Option String) × (String × Option String)))
    (h : pairs.all (fun pq => cssValuesMatch pq.1.2 pq.2.2) = true) :
    (compareProps sel pairs).1.length = pairs.length ∧
    (compareProps sel pairs).2 = [] := by
  induction pairs with
  | nil => simp [compareProps]
  | cons pq rest ih =>
      rw [List.all_cons, Bool.and_eq_true] at h
      have ihr := ih h.2
      simp only [compareProps, h.1, if_true]
      exact ⟨by simp [ihr.1], ihr.2⟩

/-- A fully matching selector yields eight matches and no mismatch. -/
theorem compareSelector_fullMatch (originalPage generatedPage : Page)
    (sel : String) (h : selectorFullMatch originalPage generatedPage sel = true) :
    (compareSelector originalPage generatedPage sel).1.length = 8 ∧
    (compareSelector originalPage generatedPage sel).2 = [] := by
  unfold selectorFullMatch at h
  cases ho : originalPage.query sel with
  | nil => rw [ho] at h; cases hg : generatedPage.query sel <;>
      rw [hg] at h <;> cases h
  | cons o0 ot =>
      rw [ho] at h
      cases hg : generatedPage.query sel with
      | nil => rw [hg] at h; cases h
      | cons g0 gt =>
          rw [hg] at h
          have := compareProps_allMatch sel _ h
          simp only [compareSelector, ho, hg]
          refine ⟨?_, this.2⟩
          rw [this.1, List.length_zip]
          rfl

/-- A fully matching selector list yields eight matches per selector and
no mismatch. -/
theorem compareFold_fullMatch (originalPage generatedPage : Page)
    (sels : List String)
    (h : sels.all (selectorFullMatch originalPage generatedPage) = true) :
    (compareFold originalPage generatedPage sels).1.length =
      8 * sels.length ∧
    (compareFold originalPage generatedPage sels).2 = [] := by
  induction sels with
  | nil => simp [compareFold]
  | cons sel rest ih =>
      rw [List.all_cons, Bool.and_eq_true] at h
      have hsel := compareSelector_fullMatch originalPage generatedPage sel h.1
      have ihr := ih h.2
      simp only [compareFold, List.map_cons, List.foldr_cons]
      constructor
      · rw [List.length_append, hsel.1]
        rw [show ((rest.map (compareSelector originalPage generatedPage)).foldr
            (fun x acc => (x.1 ++ acc.1, x.2 ++ acc.2)) ([], [])).1.length =
            8 * rest.length from ihr.1]
        simp [List.length_cons]
        ring
      · rw [hsel.2]
        exact ihr.2

/-- The printed percentage of a perfect score. -/
theorem toFixed2_hundred : toFixed2 (100 : ℚ) = "100.00" := by
  norm_num [toFixed2, round_eq]
  decide

/-- C8: the verdict is exactly `matches / (matches + mismatches) × 100`
tested against the fixed 80% threshold; and when every compared selector
class is present on both sides and every extracted property value matches,
`comparePages` passes with `matchPercentage = "100.00"` and no
mismatches. -/
theorem claim_C8 :
    (∀ (originalPage generatedPage : Page) (pageName : String),
      (comparePages originalPage generatedPage pageName).passed =
        decide (matchPercentageValue
          (compareCSSProperties originalPage generatedPage).1.length
          (compareCSSProperties originalPage generatedPage).2.length ≥ 80) ∧
      (comparePages originalPage generatedPage pageName).matchPercentage =
        toFixed2 (matchPercentageValue
          (compareCSSProperties originalPage generatedPage).1.length
          (compareCSSProperties originalPage generatedPage).2.length)) ∧
    (∀ (originalPage generatedPage : Page) (pageName : String),
      selectors.all (selectorFullMatch originalPage generatedPage) = true →
      (comparePages originalPage generatedPage pageName).passed = true ∧
      (comparePages originalPage generatedPage pageName).matchPercentage =
        "100.00" ∧
      (comparePages originalPage generatedPage pageName).cssMismatches =
        []) := by
  refine ⟨fun o g p => ⟨rfl, rfl⟩, fun o g p hfull => ?_⟩
  have hfold := compareFold_fullMatch o g selectors hfull
  have hlen1 : (compareCSSProperties o g).1.length = 80 := by
    rw [compareCSSProperties_eq_fold, hfold.1]
    rfl
  have hlen2 : (compareCSSProperties o g).2 = [] := by
    rw [compareCSSProperties_eq_fold]
    exact hfold.2
  have hpct : matchPercentageValue (compareCSSProperties o g).1.length
      (compareCSSProperties o g).2.length = 100 := by
    rw [hlen1, hlen2]
    norm_num [matchPercentageValue]
  refine ⟨?_, ?_, ?_⟩
  · show decide (matchPercentageValue (compareCSSProperties o g).1.length
      (compareCSSProperties o g).2.length ≥ 80) = true
    rw [hpct]
    rw [decide_eq_true_eq]
    norm_num
  · show toFixed2 (matchPercentageValue (compareCSSProperties o g).1.length
      (compareCSSProperties o g).2.length) = "100.00"
    rw [hpct, toFixed2_hundred]
  · show (compareCSSProperties o g).2 = []
    exact hlen2

/-- A page whose every selector query yields one element with a fixed
computed-style vector. -/
def samplePage : Page :=
  ⟨fun _ => [⟨some "red", some "blue", some "16px", some "400",
    some "0px", some "0px", some "4px", some "block"⟩]⟩

/-- C8 witness: two identical concrete pages pass at `"100.00"` with no
mismatches. -/
theorem claim_C8_witness :
    selectors.all (selectorFullMatch samplePage samplePage) = true ∧
    ((comparePages samplePage samplePage "home").passed = true ∧
     (comparePages samplePage samplePage "home").matchPercentage =
       "100.00" ∧
     (comparePages samplePage samplePage "home").cssMismatches = []) :=
  ⟨by decide, claim_C8.2 samplePage samplePage "home" (by decide)⟩

end WebClone
